import Mathlib

/-!
Verification development for the prompty fuzzy-search and tag-reconciliation
core (Go sources under internal/ui/models and internal/search).

The shallow embedding below translates the `SearchModel` message handlers of
internal/ui/models/browse.go (the revision holding the persistent
`allTaggedFiles` store), the process orchestration of `runFuzzySearchCmd`,
and the status classification of `SearchModel.View`.  Pure data is modelled
with Lean lists and strings; the single-threaded Bubble Tea event loop is
modelled as explicit state passing, with the commands a handler returns
(`tea.Cmd` values) reified as a `Cmd` list.  Timestamps are naturals counting
milliseconds, matching the `time.Time` / `time.Since` arithmetic the code
performs (Go durations are compared, never overflowed, in the embedded code).
-/

namespace Prompty

/-- Embeds the Go struct `FileItem` (browse.go).  The `OriginalMatch` pointer
field is omitted: in the fuzzy-search flow embedded here it is never written
or read (it is only populated by the legacy ripgrep flow). -/
structure FileItem where
  Path : String
  Content : String
  Tagged : Bool
deriving DecidableEq, Repr

/-- The commands a handler can return to the Bubble Tea runtime.  `runSearch`
stands for `runFuzzySearchCmd query`, `loadContent` for
`loadFileContentCmd path` (whose body calls `readFileContent` exactly once),
`emitTagged` for the closure producing a `TaggedFilesMsg` snapshot,
`debounce` for `debounceCmd(300ms)`, and `quit` for `tea.Quit`. -/
inductive Cmd where
  | runSearch (query : String)
  | loadContent (path : String)
  | emitTagged (snapshot : List FileItem)
  | debounce
  | quit
deriving DecidableEq, Repr

/-- Embeds the fields of the Go struct `SearchModel` (browse.go) that the
fuzzy-search flow reads or writes.  `query` is `textInput.Value()`;
`lastUpdate` is in milliseconds; the viewport and text-input widgets are
presentation state outside the embedded core.  Go's `int` cursor is modelled
as `Nat`: every assignment in the embedded handlers is provably nonnegative,
so the code's `m.cursor >= 0` guards are vacuous. -/
structure SearchModel where
  query : String
  results : List FileItem
  cursor : Nat
  lastUpdate : Nat
  querying : Bool
  err : Option String
  allTaggedFiles : List FileItem
deriving DecidableEq, Repr

/-- Embeds `SearchModel.GetTaggedFiles` (browse.go): the returned value is a
copy of the persistent store.  (Aliasing between the Go slice copy and the
store is studied separately with the heap model `GoHeap` below.) -/
def GetTaggedFiles (m : SearchModel) : List FileItem :=
  m.allTaggedFiles

/-- Messages of the embedded event loop, one constructor per handled branch
of `SearchModel.Update` (browse.go).  `editInput` stands for a key message
that the text input absorbed, changing its value, observed at time `now`. -/
inductive Msg where
  | editInput (newValue : String) (now : Nat)
  | keyEnter
  | keyCtrlA
  | debounced (now : Nat)
  | fuzzyResults (paths : List String)
  | fuzzyError (e : String)
  | fileContent (path content : String)
  | fileContentError (path e : String)
deriving DecidableEq, Repr

/-- Byte-lexicographic order on UTF-8 strings, as Go's `<` on `string`
compares them.  Comparing Unicode code points character by character agrees
with byte-wise comparison of the UTF-8 encodings, since UTF-8 preserves code
point order. -/
def charListLe : List Char → List Char → Bool
  | [], _ => true
  | _ :: _, [] => false
  | a :: as, b :: bs =>
    if a.toNat < b.toNat then true
    else if b.toNat < a.toNat then false
    else charListLe as bs

/-- `pathLe a b` embeds Go's `a <= b` on strings (byte order). -/
def pathLe (a b : String) : Bool :=
  charListLe a.data b.data

/-- Insertion step of the sort modelling `sort.Slice(newCombinedResults,
func(i, j) { return Path[i] < Path[j] })` in the FuzzySearchResultsMsg
handler (browse.go). -/
def insertByPath (x : FileItem) : List FileItem → List FileItem
  | [] => [x]
  | y :: ys => if pathLe x.Path y.Path then x :: y :: ys else y :: insertByPath x ys

/-- Models the `sort.Slice` call of the FuzzySearchResultsMsg handler.
`sort.Slice` is an unspecified (unstable) sorting algorithm; any
permutation sorted by the comparator is a faithful model, and on
duplicate-free keys the sorted permutation is unique, so insertion sort
computes exactly the Go output there. -/
def sortByPath : List FileItem → List FileItem
  | [] => []
  | x :: xs => insertByPath x (sortByPath xs)

/-- Steps 1–2 of the FuzzySearchResultsMsg handler: walk the matched paths,
appending a fresh untagged `FileItem` and a content-load request for every
path not in `seen` (the paths already placed in the combined list), exactly
as the Go loop over `msg` with the `seenPathsInCombined` map does. -/
def mergeMatches (acc : List FileItem) (seen : List String) (loads : List String) :
    List String → List FileItem × List String
  | [] => (acc, loads)
  | p :: ps =>
    if p ∈ seen then
      mergeMatches acc seen loads ps
    else
      mergeMatches (acc ++ [{ Path := p, Content := "", Tagged := false }])
        (p :: seen) (loads ++ [p]) ps

/-- The error message `fmt.Errorf("no fuzzy matches found for '%s'", query)`
builds. -/
def noMatchesText (query : String) : String :=
  "no fuzzy matches found for \x27" ++ query ++ "\x27"

/-- Embeds the `FuzzySearchResultsMsg` branch of `SearchModel.Update`
(browse.go): seed the combined list with every entry of `allTaggedFiles`
verbatim, add unseen matched paths as fresh untagged items with content
loads, sort by path, set the no-match error, clamp the cursor, and emit the
tag snapshot.  The Go code builds the snapshot through a closure calling
`GetTaggedFiles` at delivery time against the same store this handler leaves
behind, so the emitted snapshot is the post-state store. -/
def handleFuzzyResults (m : SearchModel) (msg : List String) : SearchModel × List Cmd :=
  let seed := m.allTaggedFiles
  let merged := mergeMatches seed (seed.map (·.Path)) [] msg
  let sorted := sortByPath merged.1
  let err' : Option String :=
    if sorted.length = 0 ∧ m.query ≠ "" then some (noMatchesText m.query) else none
  let cursor' :=
    if sorted.length > 0 then
      if m.cursor ≥ sorted.length then sorted.length - 1 else m.cursor
    else 0
  let m' := { m with querying := false, results := sorted, err := err', cursor := cursor' }
  (m', merged.2.map Cmd.loadContent ++ [Cmd.emitTagged m'.allTaggedFiles])

/-- Embeds the `FuzzySearchErrorMsg` branch of `SearchModel.Update`
(browse.go): display the tagged files, record the error, clear the
in-flight flag, reset the cursor, re-emit the snapshot.  No `tea.Quit` is
returned. -/
def handleFuzzyError (m : SearchModel) (e : String) : SearchModel × List Cmd :=
  let tagged := GetTaggedFiles m
  let m' := { m with results := tagged, err := some e, querying := false, cursor := 0 }
  (m', [Cmd.emitTagged m'.allTaggedFiles])

/-- Embeds the loops of the `fileContentMsg` branch (browse.go): both
`m.results` and `m.allTaggedFiles` are updated at the first entry whose path
matches, then the loop `break`s — so only the first match is back-filled. -/
def setContentFirst (path content : String) : List FileItem → List FileItem
  | [] => []
  | f :: fs =>
    if f.Path = path then { f with Content := content } :: fs
    else f :: setContentFirst path content fs

/-- Embeds the `fileContentMsg` branch of `SearchModel.Update` (browse.go). -/
def handleFileContent (m : SearchModel) (path content : String) : SearchModel × List Cmd :=
  let m' := { m with results := setContentFirst path content m.results,
                     allTaggedFiles := setContentFirst path content m.allTaggedFiles }
  (m', [Cmd.emitTagged m'.allTaggedFiles])

/-- The placeholder content recorded on a failed load,
`fmt.Sprintf("Error loading content: %v", err)`. -/
def loadErrorText (e : String) : String :=
  "Error loading content: " ++ e

/-- Embeds the `fileContentErrorMsg` branch of `SearchModel.Update`
(browse.go). -/
def handleFileContentError (m : SearchModel) (path e : String) : SearchModel × List Cmd :=
  let m' := { m with results := setContentFirst path (loadErrorText e) m.results,
                     allTaggedFiles := setContentFirst path (loadErrorText e) m.allTaggedFiles }
  (m', [Cmd.emitTagged m'.allTaggedFiles])

/-- Embeds the `MsgDebouncedSearch` branch of `SearchModel.Update`
(browse.go): trigger a fuzzy search only when at least 300 ms have passed
since the last text change.  `time.Since(lastUpdate)` is `now - lastUpdate`;
note the branch checks no in-flight flag. -/
def handleDebounced (m : SearchModel) (now : Nat) : SearchModel × List Cmd :=
  if now - m.lastUpdate ≥ 300 then
    ({ m with err := none, querying := true }, [Cmd.runSearch m.query])
  else (m, [])

/-- Embeds the pre-switch text-input logic of `SearchModel.Update`
(browse.go): when the text input's value changed, record the time and, only
when no search is in flight, arm the 300 ms debounce timer. -/
def handleEditChange (m : SearchModel) (newValue : String) (now : Nat) : SearchModel × List Cmd :=
  if newValue ≠ m.query then
    let m' := { m with query := newValue, lastUpdate := now }
    (m', if !m.querying then [Cmd.debounce] else [])
  else (m, [])

/-- Embeds the `tea.KeyEnter` branch of `SearchModel.Update` (browse.go):
with a non-empty query, mark a search in flight and run it (no check of the
in-flight flag); with an empty query, display the tagged files. -/
def handleEnter (m : SearchModel) : SearchModel × List Cmd :=
  if m.query ≠ "" then
    ({ m with err := none, querying := true }, [Cmd.runSearch m.query])
  else
    let tagged := GetTaggedFiles m
    let m' := { m with results := tagged, err := none, querying := false, cursor := 0 }
    (m', [Cmd.emitTagged m'.allTaggedFiles])

/-- Embeds the `tea.KeyCtrlA` branch of `SearchModel.Update` (browse.go):
toggle the tag of the entry under the cursor; on tagging, append it to the
persistent store when absent (scheduling a content load when its content is
still empty); on untagging, filter it out of the store; always emit a tag
snapshot when the cursor was valid. -/
def toggleTag (m : SearchModel) : SearchModel × List Cmd :=
  if h : m.cursor < m.results.length then
    let item := m.results.get ⟨m.cursor, h⟩
    let item' := { item with Tagged := !item.Tagged }
    let results' := m.results.set m.cursor item'
    if item'.Tagged then
      if m.allTaggedFiles.any (fun t => t.Path = item'.Path) then
        let m' := { m with results := results' }
        (m', [Cmd.emitTagged m'.allTaggedFiles])
      else
        let store' := m.allTaggedFiles ++ [item']
        let m' := { m with results := results', allTaggedFiles := store' }
        (m', (if item'.Content = "" then [Cmd.loadContent item'.Path] else [])
              ++ [Cmd.emitTagged m'.allTaggedFiles])
    else
      let store' := m.allTaggedFiles.filter (fun t => t.Path ≠ item'.Path)
      let m' := { m with results := results', allTaggedFiles := store' }
      (m', [Cmd.emitTagged m'.allTaggedFiles])
  else (m, [])

/-- The embedded `SearchModel.Update` dispatch over the messages the
fuzzy-search flow handles (browse.go).  Presentation-only branches
(window size, mouse, viewport scrolling, Esc, Ctrl+N/P, Ctrl+Q) mutate no
state the claims concern. -/
def update (m : SearchModel) (msg : Msg) : SearchModel × List Cmd :=
  match msg with
  | .editInput v t => handleEditChange m v t
  | .keyEnter => handleEnter m
  | .keyCtrlA => toggleTag m
  | .debounced t => handleDebounced m t
  | .fuzzyResults ps => handleFuzzyResults m ps
  | .fuzzyError e => handleFuzzyError m e
  | .fileContent p c => handleFileContent m p c
  | .fileContentError p e => handleFileContentError m p e

/-- The mutually exclusive branches of the status section of
`SearchModel.View` (browse.go), in source order. -/
inductive StatusKind where
  | searching
  | errorBanner
  | noMatches
  | found
  | empty
deriving DecidableEq, Repr

/-- Embeds the status-section `if` chain of `SearchModel.View` (browse.go):
querying → "Fuzzy searching…"; non-nil err → the red error banner; empty
results with a query → the muted no-match message; otherwise the found
count. -/
def statusOf (m : SearchModel) : StatusKind :=
  if m.querying then .searching
  else if m.err.isSome then .errorBanner
  else if m.results.length = 0 ∧ m.query ≠ "" then .noMatches
  else if m.results.length > 0 then .found
  else .empty

/-! ### The matcher invocation `runFuzzySearchCmd` (browse.go)

The external processes are abstracted by the outcomes the Go code branches
on: whether creating the pipe and starting each process succeeded, both exit
statuses (0 meaning success; `fzf --filter` reserves exit status 1 for "no
match found"), and the filter's standard output and error. -/

/-- One run's worth of process-level outcomes, the inputs
`runFuzzySearchCmd` branches on. -/
structure ProcEnv where
  pipeOk : Bool
  fileListStartOk : Bool
  fzfStartOk : Bool
  fzfExit : Nat
  fileListExit : Nat
  fzfStdout : String
  fzfStderr : String
deriving DecidableEq, Repr

/-- The message a finished invocation sends back: `FuzzySearchResultsMsg`
with the matched paths, or `FuzzySearchErrorMsg` with diagnostics. -/
inductive FuzzyOutcome where
  | results (paths : List String)
  | failure (diag : String)
deriving DecidableEq, Repr

/-- Whether the outcome is the error message (`FuzzySearchErrorMsg`). -/
def isMatcherFailure : FuzzyOutcome → Bool
  | .failure _ => true
  | .results _ => false

/-- `bytes.Split(stdout, []byte{0x00})`: split a character list at every NUL,
separator not included; an empty input yields one empty token, a trailing
separator a trailing empty token, exactly as `bytes.Split` does. -/
def splitNul : List Char → List (List Char)
  | [] => [[]]
  | c :: cs =>
    if c = Char.ofNat 0 then [] :: splitNul cs
    else
      match splitNul cs with
      | [] => [[c]]
      | t :: ts => (c :: t) :: ts

/-- `strings.TrimSpace(path) != ""` is false exactly when every character of
the token is white space. -/
def isBlankTok (t : List Char) : Bool :=
  t.all (fun c => c.isWhitespace)

/-- The output parsing of `runFuzzySearchCmd` (browse.go): split the filter's
standard output on NUL bytes and keep every token that is not entirely white
space, unmodified. -/
def parseFzfOutput (out : String) : List String :=
  ((splitNul out.data).filter (fun t => !isBlankTok t)).map (fun t => String.mk t)

/-- Embeds `runFuzzySearchCmd` (browse.go), branch for branch: a failed pipe
creation or a failed start of either process returns an error immediately;
then both processes are awaited and EVERY non-nil wait error — any non-zero
exit status, with no case distinction on the status — is collected into one
error message carrying the diagnostics; only when both exits are zero is the
filter output parsed into a (possibly empty) successful match result. -/
def runFuzzySearch (env : ProcEnv) : FuzzyOutcome :=
  if !env.pipeOk then
    .failure "failed to create pipe for file list"
  else if !env.fileListStartOk then
    .failure "failed to start file list command"
  else if !env.fzfStartOk then
    .failure "failed to start fzf command"
  else
    let errs :=
      (if env.fzfExit ≠ 0 then
        ["fzf exited with error: exit status " ++ toString env.fzfExit ++
          " (stderr: " ++ env.fzfStderr ++ ")"]
       else []) ++
      (if env.fileListExit ≠ 0 then
        ["file list command exited with error: exit status " ++ toString env.fileListExit]
       else [])
    if errs.isEmpty then .results (parseFzfOutput env.fzfStdout)
    else .failure ("fuzzy search process errors: " ++ String.intercalate ", " errs)

/-! ### A heap model of Go slices for `GetTaggedFiles` (browse.go)

`GetTaggedFiles` allocates a fresh slice with `make` and fills it with
`copy`.  To express that mutating the returned slice cannot affect the
store, Go slices are modelled as addresses into a heap of arrays; a write to
an element (which covers assigning any of its fields `Path`, `Content`,
`Tagged`, since `FileItem` values are stored inline in the array) only
touches the array at the written address. -/

/-- A heap of `FileItem` arrays; a slice value is an index into `arrays`. -/
structure GoHeap where
  arrays : List (List FileItem)
deriving Repr

/-- Allocate a fresh array holding `a`, returning its address. -/
def GoHeap.alloc (h : GoHeap) (a : List FileItem) : GoHeap × Nat :=
  ({ arrays := h.arrays ++ [a] }, h.arrays.length)

/-- Read the array at an address. -/
def GoHeap.readArr (h : GoHeap) (addr : Nat) : List FileItem :=
  h.arrays.getD addr []

/-- Write one element of the array at an address (modelling
`snapshot[i] = v`, and with it any field assignment through `snapshot[i]`). -/
def GoHeap.writeElem (h : GoHeap) (addr i : Nat) (v : FileItem) : GoHeap :=
  { arrays := h.arrays.set addr ((h.readArr addr).set i v) }

/-- Embeds `GetTaggedFiles` over the heap model: `make` a fresh slice of the
store's length and `copy` the store's entries into it, returning the fresh
slice. -/
def GetTaggedFilesH (h : GoHeap) (storeAddr : Nat) : GoHeap × Nat :=
  h.alloc (h.readArr storeAddr)

/-! ### Scenario drivers and measurement helpers -/

/-- Counts how many of the returned commands load the given path; each
`loadContent p` command, when executed by the runtime, calls the underlying
`readFileContent` exactly once (loadFileContentCmd, browse.go). -/
def countLoads (p : String) : List Cmd → Nat
  | [] => 0
  | Cmd.loadContent q :: cs => (if q = p then 1 else 0) + countLoads p cs
  | _ :: cs => countLoads p cs

/-- The queries of the search rounds spawned by a command list. -/
def roundsOf (cmds : List Cmd) : List String :=
  cmds.filterMap fun c =>
    match c with
    | Cmd.runSearch q => some q
    | _ => none

/-- Feed a sequence of text edits `(value, time)` through the event loop and
collect the firing times (arm time + 300 ms) of the debounce timers the
edits arm, in arming order. -/
def applyEdits (m : SearchModel) : List (String × Nat) → SearchModel × List Nat
  | [] => (m, [])
  | (q, t) :: es =>
    let r := update m (.editInput q t)
    let rest := applyEdits r.1 es
    (rest.1, (if Cmd.debounce ∈ r.2 then [t + 300] else []) ++ rest.2)

/-- Run the event loop over a message trace, collecting every command the
handlers return along the way. -/
def runTrace (m : SearchModel) : List Msg → SearchModel × List Cmd
  | [] => (m, [])
  | msg :: rest =>
    let r := update m msg
    let s := runTrace r.1 rest
    (s.1, r.2 ++ s.2)

/-- Deliver the given debounce-timer firings, in order, collecting every
command the handler returns. -/
def runFires (m : SearchModel) : List Nat → SearchModel × List Cmd
  | [] => (m, [])
  | t :: ts =>
    let r := update m (.debounced t)
    let rest := runFires r.1 ts
    (rest.1, r.2 ++ rest.2)

/-- Modelled from the spec: the case-insensitive comparison the spec sorts
by ("sorted lexicographically case-insensitively by path") — compare the
lowercase forms of the paths.  This is a spec-side definition, used only to
state the claimed ordering; the source's own comparator is `pathLe`. -/
def lowerStr (s : String) : String :=
  ⟨s.data.map Char.toLower⟩

/-- A session state with one tagged file and one loose match, used by the
concrete instantiations below. -/
def mTest : SearchModel :=
  { query := "go", results := [⟨"a.go", "package a", true⟩, ⟨"b.go", "", false⟩],
    cursor := 0, lastUpdate := 0, querying := false, err := none,
    allTaggedFiles := [⟨"a.go", "package a", true⟩] }

/-- A session state with an empty store and a pending non-empty query. -/
def mEmptyStore : SearchModel :=
  { query := "zzz", results := [], cursor := 0, lastUpdate := 0,
    querying := true, err := none, allTaggedFiles := [] }

/-- A session state in which a search round is in flight. -/
def mInFlight : SearchModel :=
  { query := "abc", results := [], cursor := 0, lastUpdate := 0,
    querying := true, err := none, allTaggedFiles := [] }

/-- Process outcomes of a run in which both processes start, the listing
process exits 0, and the filter process exits with its reserved "no
matches" status 1 producing no output. -/
def envNoMatch : ProcEnv :=
  { pipeOk := true, fileListStartOk := true, fzfStartOk := true,
    fzfExit := 1, fileListExit := 0, fzfStdout := "", fzfStderr := "" }

/-! ### Order lemmas for the byte-lexicographic comparator -/

theorem charListLe_total (a b : List Char) :
    charListLe a b = true ∨ charListLe b a = true := by
  induction a generalizing b with
  | nil => left; rfl
  | cons x xs ih =>
    cases b with
    | nil => right; rfl
    | cons y ys =>
      rcases Nat.lt_trichotomy x.toNat y.toNat with h | h | h
      · left; simp [charListLe, h]
      · rcases ih ys with h' | h' <;> [left; right] <;>
          simp [charListLe, h, h', Nat.lt_irrefl]
      · right; simp [charListLe, h]

theorem charListLe_trans {a b c : List Char}
    (hab : charListLe a b = true) (hbc : charListLe b c = true) :
    charListLe a c = true := by
  induction a generalizing b c with
  | nil => rfl
  | cons x xs ih =>
    cases b with
    | nil => simp [charListLe] at hab
    | cons y ys =>
      cases c with
      | nil => simp [charListLe] at hbc
      | cons z zs =>
        simp only [charListLe] at hab hbc ⊢
        split_ifs at hab hbc ⊢ with h1 h2 h3 h4 h5 h6 <;>
          first
          | rfl
          | omega
          | exact ih hab hbc

theorem pathLe_total (a b : String) : pathLe a b = true ∨ pathLe b a = true :=
  charListLe_total a.data b.data

theorem pathLe_trans {a b c : String}
    (hab : pathLe a b = true) (hbc : pathLe b c = true) : pathLe a c = true :=
  charListLe_trans hab hbc

/-! ### Lemmas about the reconciliation sort -/

theorem insertByPath_perm (x : FileItem) (l : List FileItem) :
    List.Perm (insertByPath x l) (x :: l) := by
  induction l with
  | nil => rfl
  | cons y ys ih =>
    by_cases h : pathLe x.Path y.Path = true
    · simp [insertByPath, h]
    · simp only [insertByPath, h, if_neg, Bool.false_eq_true]
      exact (ih.cons y).trans (List.Perm.swap x y ys)

theorem sortByPath_perm (l : List FileItem) : List.Perm (sortByPath l) l := by
  induction l with
  | nil => rfl
  | cons x xs ih =>
    exact (insertByPath_perm x (sortByPath xs)).trans (ih.cons x)

theorem mem_sortByPath {x : FileItem} {l : List FileItem} (h : x ∈ l) :
    x ∈ sortByPath l :=
  (sortByPath_perm l).mem_iff.mpr h

theorem sortByPath_length (l : List FileItem) :
    (sortByPath l).length = l.length :=
  (sortByPath_perm l).length_eq

theorem insertByPath_pairwise {x : FileItem} {l : List FileItem}
    (h : l.Pairwise (fun a b => pathLe a.Path b.Path = true)) :
    (insertByPath x l).Pairwise (fun a b => pathLe a.Path b.Path = true) := by
  induction l with
  | nil => simp [insertByPath]
  | cons y ys ih =>
    rcases List.pairwise_cons.mp h with ⟨hy, hys⟩
    by_cases hxy : pathLe x.Path y.Path = true
    · simp only [insertByPath, hxy, if_true]
      refine List.pairwise_cons.mpr ⟨?_, h⟩
      intro z hz
      rcases List.mem_cons.mp hz with rfl | hz'
      · exact hxy
      · exact pathLe_trans hxy (hy z hz')
    · have hyx : pathLe y.Path x.Path = true := by
        rcases pathLe_total x.Path y.Path with h' | h'
        · exact absurd h' hxy
        · exact h'
      simp only [insertByPath, hxy, if_false, Bool.false_eq_true]
      refine List.pairwise_cons.mpr ⟨?_, ih hys⟩
      intro z hz
      have hz2 : z = x ∨ z ∈ ys :=
        List.mem_cons.mp ((insertByPath_perm x ys).mem_iff.mp hz)
      rcases hz2 with rfl | hz3
      · exact hyx
      · exact hy z hz3

theorem sortByPath_pairwise (l : List FileItem) :
    (sortByPath l).Pairwise (fun a b => pathLe a.Path b.Path = true) := by
  induction l with
  | nil => simp [sortByPath]
  | cons x xs ih => exact insertByPath_pairwise ih

/-! ### Lemmas about the match-merging loop -/

theorem mergeMatches_acc_mem {x : FileItem} :
    ∀ (ps : List String) (acc : List FileItem) (seen loads : List String),
    x ∈ acc → x ∈ (mergeMatches acc seen loads ps).1 := by
  intro ps
  induction ps with
  | nil => intro acc seen loads h; simpa [mergeMatches] using h
  | cons p ps ih =>
    intro acc seen loads h
    by_cases hp : p ∈ seen
    · simpa [mergeMatches, hp] using ih acc seen loads h
    · simp only [mergeMatches, hp, if_neg, not_false_iff]
      exact ih _ _ _ (List.mem_append_left _ h)

theorem mergeMatches_acc_length :
    ∀ (ps : List String) (acc : List FileItem) (seen loads : List String),
    acc.length ≤ (mergeMatches acc seen loads ps).1.length := by
  intro ps
  induction ps with
  | nil => intro acc seen loads; simp [mergeMatches]
  | cons p ps ih =>
    intro acc seen loads
    by_cases hp : p ∈ seen
    · simpa [mergeMatches, hp] using ih acc seen loads
    · simp only [mergeMatches, hp, if_neg, not_false_iff]
      calc acc.length
          ≤ (acc ++ [({ Path := p, Content := "", Tagged := false } : FileItem)]).length := by
            simp
        _ ≤ _ := ih _ _ _

theorem mergeMatches_loads_spec {p : String} :
    ∀ (ps : List String) (acc : List FileItem) (seen loads : List String),
    p ∈ (mergeMatches acc seen loads ps).2 → p ∈ loads ∨ p ∉ seen := by
  intro ps
  induction ps with
  | nil => intro acc seen loads h; left; simpa [mergeMatches] using h
  | cons q ps ih =>
    intro acc seen loads h
    by_cases hq : q ∈ seen
    · simp only [mergeMatches, hq, if_pos] at h
      exact ih acc seen loads h
    · simp only [mergeMatches, hq, if_neg, not_false_iff] at h
      rcases ih _ _ _ h with h1 | h1
      · rcases List.mem_append.mp h1 with h2 | h2
        · exact Or.inl h2
        · right
          cases List.mem_singleton.mp h2
          exact hq
      · right
        intro hs
        exact h1 (List.mem_cons_of_mem _ hs)

theorem mergeMatches_loads_nodup :
    ∀ (ps : List String) (acc : List FileItem) (seen loads : List String),
    loads.Nodup → (∀ l ∈ loads, l ∈ seen) →
    (mergeMatches acc seen loads ps).2.Nodup := by
  intro ps
  induction ps with
  | nil => intro acc seen loads h _; simpa [mergeMatches] using h
  | cons q ps ih =>
    intro acc seen loads hnd hsub
    by_cases hq : q ∈ seen
    · simpa [mergeMatches, hq] using ih acc seen loads hnd hsub
    · simp only [mergeMatches, hq, if_neg, not_false_iff]
      refine ih _ _ _ ?_ ?_
      · have hql : q ∉ loads := fun hl => hq (hsub q hl)
        simpa [List.nodup_append] using And.intro hnd hql
      · intro l hl
        rcases List.mem_append.mp hl with h1 | h1
        · exact List.mem_cons_of_mem _ (hsub l h1)
        · cases List.mem_singleton.mp h1
          exact List.mem_cons_self _ _

theorem mergeMatches_paths_nodup :
    ∀ (ps : List String) (acc : List FileItem) (seen loads : List String),
    (acc.map (·.Path)).Nodup → (∀ x ∈ acc, x.Path ∈ seen) →
    ((mergeMatches acc seen loads ps).1.map (·.Path)).Nodup := by
  intro ps
  induction ps with
  | nil => intro acc seen loads h _; simpa [mergeMatches] using h
  | cons q ps ih =>
    intro acc seen loads hnd hsub
    by_cases hq : q ∈ seen
    · simpa [mergeMatches, hq] using ih acc seen loads hnd hsub
    · simp only [mergeMatches, hq, if_neg, not_false_iff]
      refine ih _ _ _ ?_ ?_
      · have hqa : q ∉ acc.map (·.Path) := by
          intro hmem
          rcases List.mem_map.mp hmem with ⟨x, hx, hxp⟩
          exact hq (hxp ▸ hsub x hx)
        simpa [List.nodup_append] using And.intro hnd hqa
      · intro x hx
        rcases List.mem_append.mp hx with h1 | h1
        · exact List.mem_cons_of_mem _ (hsub x h1)
        · cases List.mem_singleton.mp h1
          exact List.mem_cons_self _ _

theorem mergeMatches_loads_not_seen {p : String} :
    ∀ (ps : List String) (acc : List FileItem) (seen : List String),
    p ∈ seen → p ∉ (mergeMatches acc seen [] ps).2 := by
  intro ps acc seen hp hmem
  rcases mergeMatches_loads_spec ps acc seen [] hmem with h | h
  · exact absurd h (List.not_mem_nil p)
  · exact h hp

/-! ### Lemmas about content back-fill and untagging -/

theorem setContentFirst_paths (path content : String) (l : List FileItem) :
    (setContentFirst path content l).map (·.Path) = l.map (·.Path) := by
  induction l with
  | nil => rfl
  | cons f fs ih =>
    by_cases h : f.Path = path
    · simp [setContentFirst, h]
    · simp [setContentFirst, h, ih]

theorem filter_path_not_mem (p : String) (l : List FileItem) :
    p ∉ (l.filter (fun t => t.Path ≠ p)).map (·.Path) := by
  intro hmem
  rcases List.mem_map.mp hmem with ⟨x, hx, hxp⟩
  have hne : x.Path ≠ p := by
    have := (List.mem_filter.mp hx).2
    simpa using this
  exact hne hxp

theorem countLoads_append (p : String) (a b : List Cmd) :
    countLoads p (a ++ b) = countLoads p a + countLoads p b := by
  induction a with
  | nil => simp [countLoads]
  | cons c cs ih =>
    cases c <;> simp [countLoads, ih, Nat.add_assoc]

theorem countLoads_map (p : String) (loads : List String) :
    countLoads p (loads.map Cmd.loadContent) = loads.count p := by
  induction loads with
  | nil => rfl
  | cons q qs ih =>
    by_cases h : q = p
    · simp [countLoads, ih, h, List.count_cons]
      omega
    · simp [countLoads, ih, h, List.count_cons]

/-! ## Claim C1 -/

/-- C1: for every state of the persistent tag store and every incoming match
result (including the empty one), the reconciliation performed when a
`FuzzySearchResultsMsg` is handled produces a displayed result list that
contains every currently tagged file with its tagged flag and loaded content
preserved verbatim (the `FileItem` value itself is retained), whether or not
its path occurs in the match result. -/
theorem C1_tagged_preserved (m : SearchModel) (msg : List String) (f : FileItem)
    (hf : f ∈ m.allTaggedFiles) :
    f ∈ (update m (.fuzzyResults msg)).1.results := by
  show f ∈ (handleFuzzyResults m msg).1.results
  unfold handleFuzzyResults
  exact mem_sortByPath (mergeMatches_acc_mem msg _ _ _ hf)

/-- Witness for C1 at a concrete state: the tagged `a.go` with its loaded
content survives a reconciliation whose match result does not mention it. -/
theorem C1_tagged_preserved_witness :
    (⟨"a.go", "package a", true⟩ : FileItem) ∈ mTest.allTaggedFiles ∧
    (⟨"a.go", "package a", true⟩ : FileItem) ∈
      (update mTest (.fuzzyResults ["b.go", "c.go"])).1.results :=
  ⟨by decide, C1_tagged_preserved mTest ["b.go", "c.go"] _ (by decide)⟩

/-! ## Claim C6 -/

/-- C6: on a `FuzzySearchErrorMsg`, the persistent tag store is unchanged,
every tagged file remains present in the displayed list, the error is
surfaced as that round's status (the error banner) and cleared again by the
next successful reconciliation, and no quit command is produced. -/
theorem C6_error_session_scoped (m : SearchModel) (e : String) :
    (update m (.fuzzyError e)).1.allTaggedFiles = m.allTaggedFiles ∧
    (∀ f ∈ m.allTaggedFiles, f ∈ (update m (.fuzzyError e)).1.results) ∧
    (update m (.fuzzyError e)).1.err = some e ∧
    statusOf (update m (.fuzzyError e)).1 = .errorBanner ∧
    Cmd.quit ∉ (update m (.fuzzyError e)).2 ∧
    (m.allTaggedFiles ≠ [] → ∀ ps,
      (update (update m (.fuzzyError e)).1 (.fuzzyResults ps)).1.err = none) := by
  refine ⟨rfl, ?_, rfl, ?_, ?_, ?_⟩
  · intro f hf
    simpa [update, handleFuzzyError, GetTaggedFiles] using hf
  · simp [update, handleFuzzyError, statusOf]
  · simp [update, handleFuzzyError]
  · intro hne ps
    show (handleFuzzyResults _ ps).1.err = none
    have hlen : 0 <
        (sortByPath (mergeMatches m.allTaggedFiles
          (m.allTaggedFiles.map (·.Path)) [] ps).1).length := by
      rw [sortByPath_length]
      have h1 := mergeMatches_acc_length ps m.allTaggedFiles
        (m.allTaggedFiles.map (·.Path)) []
      have h2 : 0 < m.allTaggedFiles.length := List.length_pos.mpr hne
      omega
    unfold handleFuzzyResults
    simp only [update, handleFuzzyError]
    rw [if_neg]
    intro hcon
    rw [hcon.1] at hlen
    exact Nat.lt_irrefl 0 hlen

/-- Witness for C6 at a concrete state. -/
theorem C6_error_session_scoped_witness :
    ((⟨"a.go", "package a", true⟩ : FileItem) ∈ mTest.allTaggedFiles →
      (⟨"a.go", "package a", true⟩ : FileItem) ∈
        (update mTest (.fuzzyError "boom")).1.results) ∧
    (update mTest (.fuzzyError "boom")).1.allTaggedFiles = mTest.allTaggedFiles ∧
    (mTest.allTaggedFiles ≠ [] →
      (update (update mTest (.fuzzyError "boom")).1 (.fuzzyResults [])).1.err = none) :=
  ⟨fun h => (C6_error_session_scoped mTest "boom").2.1 _ h,
   (C6_error_session_scoped mTest "boom").1,
   fun h => (C6_error_session_scoped mTest "boom").2.2.2.2.2 h []⟩

/-! ## Claim C7 -/

/-- C7: untagging removes the path from the persistent store immediately —
the emitted snapshot no longer contains it — and a content load completing
afterwards only back-fills entries already present: it never changes the
store's path set, so the untagged path is absent from the store and from the
snapshot emitted after the load as well. -/
theorem C7_untag_discards_late_load (m : SearchModel)
    (h : m.cursor < m.results.length)
    (ht : (m.results.get ⟨m.cursor, h⟩).Tagged = true) (c : String) :
    (m.results.get ⟨m.cursor, h⟩).Path ∉
      (update m .keyCtrlA).1.allTaggedFiles.map (·.Path) ∧
    (update m .keyCtrlA).2 =
      [Cmd.emitTagged (update m .keyCtrlA).1.allTaggedFiles] ∧
    (update (update m .keyCtrlA).1
        (.fileContent (m.results.get ⟨m.cursor, h⟩).Path c)).1.allTaggedFiles.map (·.Path) =
      (update m .keyCtrlA).1.allTaggedFiles.map (·.Path) ∧
    (m.results.get ⟨m.cursor, h⟩).Path ∉
      (update (update m .keyCtrlA).1
        (.fileContent (m.results.get ⟨m.cursor, h⟩).Path c)).1.allTaggedFiles.map (·.Path) ∧
    (update (update m .keyCtrlA).1
        (.fileContent (m.results.get ⟨m.cursor, h⟩).Path c)).2 =
      [Cmd.emitTagged (update (update m .keyCtrlA).1
        (.fileContent (m.results.get ⟨m.cursor, h⟩).Path c)).1.allTaggedFiles] := by
  have htoggle : update m .keyCtrlA =
      ({ m with
          results := m.results.set m.cursor
            { m.results.get ⟨m.cursor, h⟩ with
                Tagged := !(m.results.get ⟨m.cursor, h⟩).Tagged },
          allTaggedFiles := m.allTaggedFiles.filter
            (fun t => t.Path ≠ (m.results.get ⟨m.cursor, h⟩).Path) },
        [Cmd.emitTagged (m.allTaggedFiles.filter
            (fun t => t.Path ≠ (m.results.get ⟨m.cursor, h⟩).Path))]) := by
    show toggleTag m = _
    unfold toggleTag
    rw [dif_pos h]
    simp only [ht, Bool.not_true, if_neg, Bool.false_eq_true, not_false_iff]
  rw [htoggle]
  refine ⟨filter_path_not_mem _ _, rfl, ?_, ?_, rfl⟩
  · exact setContentFirst_paths _ _ _
  · rw [show (update { m with
        results := m.results.set m.cursor
          { m.results.get ⟨m.cursor, h⟩ with
              Tagged := !(m.results.get ⟨m.cursor, h⟩).Tagged },
        allTaggedFiles := m.allTaggedFiles.filter
          (fun t => t.Path ≠ (m.results.get ⟨m.cursor, h⟩).Path) }
        (.fileContent (m.results.get ⟨m.cursor, h⟩).Path c)).1.allTaggedFiles.map (·.Path) =
        (m.allTaggedFiles.filter
          (fun t => t.Path ≠ (m.results.get ⟨m.cursor, h⟩).Path)).map (·.Path)
      from setContentFirst_paths _ _ _]
    exact filter_path_not_mem _ _

/-- Witness for C7 at a concrete state: untag the tagged `a.go` under the
cursor, then let its content load complete. -/
theorem C7_untag_discards_late_load_witness :
    (0 : Nat) < mTest.results.length ∧
    (mTest.results.get ⟨0, by decide⟩).Tagged = true ∧
    (mTest.results.get ⟨0, by decide⟩).Path ∉
      (update mTest .keyCtrlA).1.allTaggedFiles.map (·.Path) ∧
    (mTest.results.get ⟨0, by decide⟩).Path ∉
      (update (update mTest .keyCtrlA).1
        (.fileContent (mTest.results.get ⟨0, by decide⟩).Path "late")).1.allTaggedFiles.map
        (·.Path) :=
  ⟨by decide, by decide,
   (C7_untag_discards_late_load mTest (by decide) (by decide) "late").1,
   (C7_untag_discards_late_load mTest (by decide) (by decide) "late").2.2.2.1⟩

/-! ## Claim C10 -/

/-- C10: `GetTaggedFiles` hands out a freshly allocated copy of the store's
entries: the copy reads back equal to the store, its address is distinct
from the store's, and writing any element of the copy (hence assigning any
of its fields) leaves the store's array untouched. -/
theorem C10_snapshot_isolated (h : GoHeap) (storeAddr : Nat)
    (hs : storeAddr < h.arrays.length) :
    (GetTaggedFilesH h storeAddr).2 ≠ storeAddr ∧
    (GetTaggedFilesH h storeAddr).1.readArr (GetTaggedFilesH h storeAddr).2 =
      h.readArr storeAddr ∧
    ∀ i v,
      (((GetTaggedFilesH h storeAddr).1.writeElem (GetTaggedFilesH h storeAddr).2 i v).readArr
          storeAddr) = h.readArr storeAddr := by
  refine ⟨?_, ?_, ?_⟩
  · show h.arrays.length ≠ storeAddr
    omega
  · show (h.arrays ++ [h.readArr storeAddr]).getD h.arrays.length [] = _
    rw [List.getD_eq_getElem?_getD, List.getElem?_append_right (Nat.le_refl _)]
    simp
  · intro i v
    show (((h.arrays ++ [h.readArr storeAddr]).set h.arrays.length _).getD storeAddr []) = _
    rw [List.getD_eq_getElem?_getD, List.getElem?_set_ne (by omega)]
    rw [List.getElem?_append_left hs]
    simp [GoHeap.readArr, List.getD_eq_getElem?_getD]

/-! ## Claim C2 -/

/-- C2 counterexample: at a run in which both processes start, the listing
process exits 0 and the filter process exits with its reserved "no matches"
status 1 with empty output, `runFuzzySearchCmd` returns the error message,
not a successful empty match result — refuting the claimed exit-code
convention at this concrete input. -/
theorem C2_counterexample :
    envNoMatch.fzfExit = 1 ∧ envNoMatch.fileListExit = 0 ∧
    envNoMatch.pipeOk = true ∧ envNoMatch.fileListStartOk = true ∧
    envNoMatch.fzfStartOk = true ∧
    isMatcherFailure (runFuzzySearch envNoMatch) = true ∧
    runFuzzySearch envNoMatch ≠ .results [] := by
  decide

/-- C2 amended: `runFuzzySearchCmd` treats every non-zero exit of either
process uniformly — including the filter's reserved "no matches" status —
as an error carrying the processes' diagnostic output; a successful (and
possibly empty) match result arises exactly when both processes start and
exit 0, the empty result coming from parsing an empty output. -/
theorem C2_amended_exit_codes (env : ProcEnv)
    (hp : env.pipeOk = true) (h1 : env.fileListStartOk = true)
    (h2 : env.fzfStartOk = true) :
    ((env.fzfExit ≠ 0 ∨ env.fileListExit ≠ 0) →
      isMatcherFailure (runFuzzySearch env) = true) ∧
    (env.fzfExit = 0 → env.fileListExit = 0 →
      runFuzzySearch env = .results (parseFzfOutput env.fzfStdout)) ∧
    parseFzfOutput "" = [] := by
  refine ⟨?_, ?_, by decide⟩
  · intro hne
    unfold runFuzzySearch
    simp only [hp, h1, h2, Bool.not_true, Bool.false_eq_true, if_neg, not_false_iff,
      if_false]
    rcases hne with hne | hne
    · rw [if_neg]
      · rfl
      · simp [hne]
    · rw [if_neg]
      · rfl
      · simp [hne, List.isEmpty_iff]
  · intro hz1 hz2
    unfold runFuzzySearch
    simp [hp, h1, h2, hz1, hz2]

/-- Witness for C2's amended claim: the reserved no-match exit is an error,
and a clean run with no output yields the empty successful result. -/
theorem C2_amended_exit_codes_witness :
    isMatcherFailure (runFuzzySearch envNoMatch) = true ∧
    runFuzzySearch { envNoMatch with fzfExit := 0 } = .results [] :=
  ⟨(C2_amended_exit_codes envNoMatch rfl rfl rfl).1 (Or.inl (by decide)),
   by
    have h := (C2_amended_exit_codes { envNoMatch with fzfExit := 0 } rfl rfl rfl).2.1
      rfl rfl
    rw [h]
    decide⟩

/-! ## Claim C3 -/

/-- C3 counterexample: the path `p.go`, matched by two successive search
rounds while untagged, has its content read once per round — even though
the first round's load completed successfully in between — so
`readFileContent` runs twice in one session, refuting the at-most-once
claim. -/
theorem C3_counterexample :
    countLoads "p.go"
      (runTrace mEmptyStore
        [.fuzzyResults ["p.go"], .fileContent "p.go" "data",
         .fuzzyResults ["p.go"]]).2 = 2 := by
  decide

/-- C3 amended: a content load is scheduled at most once per path per
reconciliation, and only for paths not currently in the tag store; during
tag toggling, a load is scheduled only when the entry's content is still
empty, so untag/re-tag of a loaded entry reads nothing — but a path matched
by successive rounds while untagged is re-read once per round, so reads are
bounded per round, not per session. -/
theorem C3_amended_load_scheduling (m : SearchModel)
    (h : m.cursor < m.results.length) (msg : List String) (p : String) :
    ((m.results.get ⟨m.cursor, h⟩).Content ≠ "" →
      countLoads p (update m .keyCtrlA).2 = 0) ∧
    (p ∈ m.allTaggedFiles.map (·.Path) →
      countLoads p (update m (.fuzzyResults msg)).2 = 0) ∧
    countLoads p (update m (.fuzzyResults msg)).2 ≤ 1 := by
  have hloads : (update m (.fuzzyResults msg)).2 =
      (mergeMatches m.allTaggedFiles (m.allTaggedFiles.map (·.Path)) [] msg).2.map
        Cmd.loadContent ++
      [Cmd.emitTagged (update m (.fuzzyResults msg)).1.allTaggedFiles] := rfl
  have hcount : countLoads p (update m (.fuzzyResults msg)).2 =
      (mergeMatches m.allTaggedFiles (m.allTaggedFiles.map (·.Path)) [] msg).2.count p := by
    rw [hloads, countLoads_append, countLoads_map]
    simp [countLoads]
  refine ⟨?_, ?_, ?_⟩
  · intro hc
    show countLoads p (toggleTag m).2 = 0
    unfold toggleTag
    rw [dif_pos h]
    dsimp only
    split_ifs with h1 h2 <;> simp_all [countLoads]
  · intro hp
    rw [hcount]
    exact List.count_eq_zero.mpr
      (mergeMatches_loads_not_seen msg m.allTaggedFiles _ hp)
  · rw [hcount]
    have hnd : (mergeMatches m.allTaggedFiles (m.allTaggedFiles.map (·.Path)) []
        msg).2.Nodup :=
      mergeMatches_loads_nodup msg _ _ [] List.nodup_nil (by simp)
    exact List.nodup_iff_count_le_one.mp hnd p

/-- Witness for C3's amended claim at a concrete state: re-tagging the
loaded `a.go` schedules no read, and a round matching the tagged `a.go`
loads it zero times. -/
theorem C3_amended_load_scheduling_witness :
    (mTest.results.get ⟨0, by decide⟩).Content ≠ "" ∧
    countLoads "a.go" (update mTest .keyCtrlA).2 = 0 ∧
    "a.go" ∈ mTest.allTaggedFiles.map (·.Path) ∧
    countLoads "a.go" (update mTest (.fuzzyResults ["a.go", "b.go"])).2 = 0 :=
  ⟨by decide,
   (C3_amended_load_scheduling mTest (by decide) ["a.go", "b.go"] "a.go").1 (by decide),
   by decide,
   (C3_amended_load_scheduling mTest (by decide) ["a.go", "b.go"] "a.go").2.1 (by decide)⟩

/-! ## Claim C4 -/

/-- C4 counterexample: reconciling the match result `["B.go", "a.go"]`
against an empty tag store displays the paths in that same order — the
code's byte-order sort puts `B.go` (0x42) before `a.go` (0x61) — yet the
lowercase form of the path at position 0 is not ≤ the lowercase form of the
path at position 1, refuting the claimed case-insensitive ordering. -/
theorem C4_counterexample :
    (update mEmptyStore (.fuzzyResults ["B.go", "a.go"])).1.results.map (·.Path) =
      ["B.go", "a.go"] ∧
    pathLe (lowerStr "B.go") (lowerStr "a.go") = false := by
  decide

/-- C4 amended: the displayed list of every reconciliation is deduplicated
by path (given the store invariant that its paths are unique) and is sorted
lexicographically case-SENSITIVELY, by byte order on the paths — not on
their lowercase forms. -/
theorem C4_amended_dedup_byte_sort (m : SearchModel) (msg : List String)
    (hnd : (m.allTaggedFiles.map (·.Path)).Nodup) :
    ((update m (.fuzzyResults msg)).1.results.map (·.Path)).Nodup ∧
    (update m (.fuzzyResults msg)).1.results.Pairwise
      (fun a b => pathLe a.Path b.Path = true) := by
  constructor
  · have hmerged : ((mergeMatches m.allTaggedFiles (m.allTaggedFiles.map (·.Path)) []
        msg).1.map (·.Path)).Nodup :=
      mergeMatches_paths_nodup msg _ _ [] hnd (fun x hx => List.mem_map_of_mem _ hx)
    show ((sortByPath _).map (·.Path)).Nodup
    exact ((sortByPath_perm _).map _).nodup_iff.mpr hmerged
  · exact sortByPath_pairwise _

/-- Witness for C4's amended claim at a concrete state. -/
theorem C4_amended_dedup_byte_sort_witness :
    (mTest.allTaggedFiles.map (·.Path)).Nodup ∧
    ((update mTest (.fuzzyResults ["b.go", "a.go", "b.go"])).1.results.map
      (·.Path)).Nodup :=
  ⟨by decide,
   (C4_amended_dedup_byte_sort mTest ["b.go", "a.go", "b.go"] (by decide)).1⟩

/-! ## Claim C5 -/

theorem applyEdits_spec :
    ∀ (edits : List (String × Nat)) (m : SearchModel) (hne : edits ≠ [])
      (_ : m.querying = false)
      (_ : List.Chain' (· ≠ ·) (m.query :: edits.map (·.1))),
    applyEdits m edits =
      ({ m with query := (edits.getLast hne).1,
                lastUpdate := (edits.getLast hne).2 },
       edits.map (fun e => e.2 + 300)) := by
  intro edits
  induction edits with
  | nil => intro m hne _ _; exact absurd rfl hne
  | cons e es ih =>
    intro m hne hq hchain
    obtain ⟨q, t⟩ := e
    have hqne : q ≠ m.query := by
      have := (List.chain'_cons.mp hchain).1
      exact this.symm
    have hstep : update m (.editInput q t) =
        ({ m with query := q, lastUpdate := t }, [Cmd.debounce]) := by
      show handleEditChange m q t = _
      unfold handleEditChange
      rw [if_pos hqne]
      simp [hq]
    cases es with
    | nil =>
      simp [applyEdits, hstep, List.getLast]
    | cons e2 es2 =>
      have hne2 : e2 :: es2 ≠ [] := List.cons_ne_nil _ _
      have hchain2 : List.Chain' (· ≠ ·)
          (({ m with query := q, lastUpdate := t } : SearchModel).query ::
            (e2 :: es2).map (·.1)) := by
        have := (List.chain'_cons.mp hchain).2
        simpa using this
      have hrec := ih { m with query := q, lastUpdate := t } hne2 hq hchain2
      show ((applyEdits (update m (.editInput q t)).1 (e2 :: es2)).1,
        (if Cmd.debounce ∈ (update m (.editInput q t)).2 then [t + 300] else []) ++
          (applyEdits (update m (.editInput q t)).1 (e2 :: es2)).2) = _
      rw [hstep]
      simp only [hrec]
      rw [List.getLast_cons hne2]
      simp

theorem runFires_skip :
    ∀ (fires : List Nat) (m : SearchModel),
    (∀ u ∈ fires, u < m.lastUpdate + 300) →
    runFires m fires = (m, []) := by
  intro fires
  induction fires with
  | nil => intro m _; rfl
  | cons u us ih =>
    intro m hall
    have hu : u < m.lastUpdate + 300 := hall u (List.mem_cons_self _ _)
    have hstep : update m (.debounced u) = (m, []) := by
      show handleDebounced m u = _
      unfold handleDebounced
      rw [if_neg (by omega)]
    show ((runFires (update m (.debounced u)).1 us).1,
      (update m (.debounced u)).2 ++ (runFires (update m (.debounced u)).1 us).2) = _
    rw [hstep]
    simp [ih m (fun v hv => hall v (List.mem_cons_of_mem _ hv))]

theorem runFires_append (m : SearchModel) (a b : List Nat) :
    runFires m (a ++ b) =
      ((runFires (runFires m a).1 b).1,
        (runFires m a).2 ++ (runFires (runFires m a).1 b).2) := by
  induction a generalizing m with
  | nil => simp [runFires]
  | cons u us ih =>
    show runFires m (u :: (us ++ b)) = _
    simp only [runFires, ih]
    simp [List.append_assoc]

/-- C5: for every sequence of query edits with strictly increasing
timestamps whose debounce timers all fire after the last edit (all edits
within one 300 ms quiet window), starting with no round in flight, the
armed timers trigger exactly one search round, carrying the last edited
query value; and a timer firing strictly less than 300 ms after the most
recent edit triggers nothing and changes nothing. -/
theorem C5_debounce_last_write_wins (m0 : SearchModel)
    (front : List (String × Nat)) (lastE : String × Nat)
    (hq : m0.querying = false)
    (hchain : List.Chain' (· ≠ ·) (m0.query :: (front ++ [lastE]).map (·.1)))
    (hmono : ∀ x ∈ front, x.2 < lastE.2)
    (_ : ∀ x ∈ front, lastE.2 < x.2 + 300) :
    roundsOf (runFires (applyEdits m0 (front ++ [lastE])).1
      (applyEdits m0 (front ++ [lastE])).2).2 = [lastE.1] ∧
    (∀ (m : SearchModel) (t : Nat), t < m.lastUpdate + 300 →
      update m (.debounced t) = (m, [])) := by
  constructor
  · have hne : front ++ [lastE] ≠ [] := by simp
    have hlastv : (front ++ [lastE]).getLast hne = lastE := by
      simp [List.getLast_append]
    rw [applyEdits_spec (front ++ [lastE]) m0 hne hq hchain]
    rw [hlastv]
    rw [List.map_append]
    rw [runFires_append]
    rw [runFires_skip (front.map (fun e => e.2 + 300))
      { m0 with query := lastE.1, lastUpdate := lastE.2 }
      (by
        intro u hu
        rcases List.mem_map.mp hu with ⟨x, hx, rfl⟩
        have := hmono x hx
        simp only []
        omega)]
    have hfire : (update
        ({ m0 with query := lastE.1, lastUpdate := lastE.2 } : SearchModel)
        (.debounced (lastE.2 + 300))).2 = [Cmd.runSearch lastE.1] := by
      show (handleDebounced _ _).2 = _
      unfold handleDebounced
      rw [if_pos (by simp)]
    simp [runFires, hfire, roundsOf]
  · intro m t ht
    show handleDebounced m t = _
    unfold handleDebounced
    rw [if_neg (by omega)]

/-- Witness for C5: two edits 100 ms apart starting from an idle state
produce exactly the round for the second query, and an early timer firing
changes nothing. -/
theorem C5_debounce_last_write_wins_witness :
    roundsOf (runFires (applyEdits mTest [("a", 100), ("ab", 200)]).1
      (applyEdits mTest [("a", 100), ("ab", 200)]).2).2 = ["ab"] ∧
    update mTest (.debounced 100) = (mTest, []) :=
  ⟨(C5_debounce_last_write_wins mTest [("a", 100)] ("ab", 200) rfl
      (by
        show List.Chain' (· ≠ ·) ["go", "a", "ab"]
        exact List.chain'_cons.mpr ⟨by decide,
          List.chain'_cons.mpr ⟨by decide, List.chain'_singleton _⟩⟩)
      (by decide) (by decide)).1,
   (C5_debounce_last_write_wins mTest [("a", 100)] ("ab", 200) rfl
      (by
        show List.Chain' (· ≠ ·) ["go", "a", "ab"]
        exact List.chain'_cons.mpr ⟨by decide,
          List.chain'_cons.mpr ⟨by decide, List.chain'_singleton _⟩⟩)
      (by decide) (by decide)).2 mTest 100 (by decide)⟩

/-! ## Claim C8 -/

/-- C8 counterexample: with an empty tag store, a non-empty query and an
empty match set, the handler records the no-match condition in the same
`err` field used for matcher failures, and the View's status section
classifies the state into the SAME explicit error-banner branch it uses for
a process/pipe failure — refuting the claimed status-level distinction. -/
theorem C8_counterexample :
    (update mEmptyStore (.fuzzyResults [])).1.err = some (noMatchesText "zzz") ∧
    statusOf (update mEmptyStore (.fuzzyResults [])).1 = .errorBanner ∧
    statusOf (update mEmptyStore (.fuzzyError "pipe failure")).1 = .errorBanner := by
  decide

/-- C8 amended: after a successful empty-match round the display still
contains every tagged file; but when the reconciled display is empty and
the query non-empty, the "no fuzzy matches" condition is stored in the very
`err` field used for matcher failures and is rendered through the same
error-banner branch of the View — it is not a status-level condition
distinct from an error. -/
theorem C8_amended_no_match_uses_error_banner (m : SearchModel)
    (hq : m.query ≠ "") :
    (∀ f ∈ m.allTaggedFiles, f ∈ (update m (.fuzzyResults [])).1.results) ∧
    (m.allTaggedFiles = [] →
      (update m (.fuzzyResults [])).1.err = some (noMatchesText m.query) ∧
      statusOf (update m (.fuzzyResults [])).1 = .errorBanner) := by
  constructor
  · intro f hf
    exact mem_sortByPath (mergeMatches_acc_mem [] _ _ _ hf)
  · intro hstore
    constructor
    · show (handleFuzzyResults m []).1.err = _
      unfold handleFuzzyResults
      simp [hstore, mergeMatches, sortByPath, hq]
    · show statusOf (handleFuzzyResults m []).1 = _
      unfold handleFuzzyResults
      simp [hstore, mergeMatches, sortByPath, hq, statusOf]

/-- Witness for C8's amended claim at the concrete empty-store state. -/
theorem C8_amended_no_match_uses_error_banner_witness :
    (update mEmptyStore (.fuzzyResults [])).1.err = some (noMatchesText "zzz") ∧
    statusOf (update mEmptyStore (.fuzzyResults [])).1 = .errorBanner :=
  (C8_amended_no_match_uses_error_banner mEmptyStore (by decide)).2 rfl

/-! ## Claim C9 -/

/-- C9 counterexample: at a state whose in-flight flag is set, pressing
Enter with a non-empty query spawns a matcher invocation, and so does a
debounce timer firing 300 ms after the last edit — refuting the claim that
no user action or timer message spawns a second invocation while one is in
flight. -/
theorem C9_counterexample :
    mInFlight.querying = true ∧
    (update mInFlight .keyEnter).2 = [Cmd.runSearch "abc"] ∧
    (update mInFlight (.debounced 300)).2 = [Cmd.runSearch "abc"] := by
  decide

/-- C9 amended: the in-flight flag gates only the arming of the debounce
timer on query edits (an edit while a round is in flight is recorded but
emits no command); it does not gate triggering — pressing Enter with a
non-empty query, or a debounce timer firing at least 300 ms after the last
edit, spawns a matcher invocation even while a round is in flight. -/
theorem C9_amended_flag_gates_only_arming (m : SearchModel)
    (hq : m.querying = true) :
    (∀ v t, (update m (.editInput v t)).2 = []) ∧
    (m.query ≠ "" → (update m .keyEnter).2 = [Cmd.runSearch m.query]) ∧
    (∀ t, t - m.lastUpdate ≥ 300 →
      (update m (.debounced t)).2 = [Cmd.runSearch m.query]) := by
  refine ⟨?_, ?_, ?_⟩
  · intro v t
    show (handleEditChange m v t).2 = []
    unfold handleEditChange
    split_ifs <;> simp_all
  · intro hne
    show (handleEnter m).2 = _
    unfold handleEnter
    rw [if_pos hne]
  · intro t ht
    show (handleDebounced m t).2 = _
    unfold handleDebounced
    rw [if_pos ht]

/-- Witness for C9's amended claim at the concrete in-flight state. -/
theorem C9_amended_flag_gates_only_arming_witness :
    (update mInFlight (.editInput "abcd" 100)).2 = [] ∧
    (update mInFlight .keyEnter).2 = [Cmd.runSearch "abc"] ∧
    (update mInFlight (.debounced 500)).2 = [Cmd.runSearch "abc"] :=
  ⟨(C9_amended_flag_gates_only_arming mInFlight rfl).1 "abcd" 100,
   (C9_amended_flag_gates_only_arming mInFlight rfl).2.1 (by decide),
   (C9_amended_flag_gates_only_arming mInFlight rfl).2.2 500 (by decide)⟩

/-- Witness for C10 on a concrete two-array heap. -/
theorem C10_snapshot_isolated_witness :
    (0 : Nat) < ({ arrays := [[⟨"a.go", "x", true⟩]] } : GoHeap).arrays.length ∧
    ((GetTaggedFilesH { arrays := [[⟨"a.go", "x", true⟩]] } 0).1.writeElem
        (GetTaggedFilesH { arrays := [[⟨"a.go", "x", true⟩]] } 0).2 0
        ⟨"mutated", "y", false⟩).readArr 0 =
      ({ arrays := [[⟨"a.go", "x", true⟩]] } : GoHeap).readArr 0 :=
  ⟨by decide,
   (C10_snapshot_isolated { arrays := [[⟨"a.go", "x", true⟩]] } 0 (by decide)).2.2 0
     ⟨"mutated", "y", false⟩⟩

end Prompty
